import Mathlib

/-
Formal model of the honeylager log sink (robdimsdale/honeylager).

The Go sources embedded here are `honeylager.go` (the primary sink) and the
near-duplicate sink implementation shipped alongside it (modelled as `partLog`
below). Go maps are modelled as association lists with map semantics: `mapGet`
looks a key up, `setField` stores a key (overwriting any previous binding, as
Go map assignment does), `mapDelete` removes a key (as Go's `delete` does).
Nondeterministic runtime inputs of a single `Log` call — the draw of the
process-wide random generator, the best-effort caller-name resolution of
`runtime.Caller`, and the two dynamic process-health fields — are passed in
explicitly as an `Oracle` value.
-/

namespace Honeylager

/-- Runtime values stored in log data, event fields and metadata. Go uses
`interface\x7b\x7d`; the constructors here cover the shapes this codebase puts in:
strings, integers (incl. the lager log-level ordinal and the dynamic fields)
and error values (the timestamp parse error). -/
inductive Value where
  | vStr (s : String)
  | vInt (n : Int)
  | vErr (msg : String)
deriving DecidableEq, Repr, Inhabited

/-- A Go string-keyed map, modelled as an association list. -/
abbrev DataMap := List (String × Value)

/-- Lookup of a key, mirroring Go map indexing (which yields the zero value,
here `none`, for a missing key). -/
def mapGet (k : String) : DataMap → Option Value
  | [] => none
  | (k', v) :: rest => if k' = k then some v else mapGet k rest

/-- Removal of every binding of a key, mirroring Go's `delete` (a Go map holds
at most one binding per key, so removing all occurrences is the same map). -/
def mapDelete (k : String) : DataMap → DataMap
  | [] => []
  | (k', v) :: rest => if k' = k then mapDelete k rest else (k', v) :: mapDelete k rest

/-- Store of a binding, mirroring Go map assignment: any previous binding of
the key is overwritten. -/
def setField (m : DataMap) (k : String) (v : Value) : DataMap :=
  mapDelete k m ++ [(k, v)]

/-- Store of every binding of `d` into `m`, in order, mirroring libhoney's
`Event.Add(data)` which calls `AddField` for each entry of the map. -/
def setAll (m : DataMap) (d : DataMap) : DataMap :=
  d.foldl (fun acc kv => setField acc kv.1 kv.2) m

/-- Keys of a data map. -/
def keysOf (m : DataMap) : List String :=
  m.map Prod.fst

@[simp]
theorem keysOf_nil : keysOf [] = [] := rfl

@[simp]
theorem keysOf_cons (k : String) (v : Value) (m : DataMap) :
    keysOf ((k, v) :: m) = k :: keysOf m := rfl

@[simp]
theorem mapGet_nil (k : String) : mapGet k [] = none := rfl

@[simp]
theorem mapGet_cons (k k' : String) (v : Value) (rest : DataMap) :
    mapGet k ((k', v) :: rest) = if k' = k then some v else mapGet k rest := rfl

theorem mapGet_mapDelete_self (k : String) (m : DataMap) :
    mapGet k (mapDelete k m) = none := by
  induction m with
  | nil => rfl
  | cons kv rest ih =>
    obtain ⟨k₀, v⟩ := kv
    by_cases h : k₀ = k <;> simp [mapDelete, h, ih]

theorem mapGet_mapDelete_ne {k k' : String} (h : k' ≠ k) (m : DataMap) :
    mapGet k' (mapDelete k m) = mapGet k' m := by
  induction m with
  | nil => rfl
  | cons kv rest ih =>
    obtain ⟨k₀, v⟩ := kv
    by_cases hk : k₀ = k
    · subst hk
      simp [mapDelete, ih, Ne.symm h]
    · by_cases hk' : k₀ = k' <;> simp [mapDelete, hk, hk', ih, h]

theorem mapGet_append (k : String) (m₁ m₂ : DataMap) :
    mapGet k (m₁ ++ m₂) =
      match mapGet k m₁ with
      | some v => some v
      | none => mapGet k m₂ := by
  induction m₁ with
  | nil => simp
  | cons kv rest ih =>
    obtain ⟨k₀, v⟩ := kv
    by_cases h : k₀ = k <;> simp [h, ih]

theorem mapGet_setField_self (m : DataMap) (k : String) (v : Value) :
    mapGet k (setField m k v) = some v := by
  unfold setField
  rw [mapGet_append, mapGet_mapDelete_self]
  simp

theorem mapGet_setField_ne {k k' : String} (h : k' ≠ k) (m : DataMap) (v : Value) :
    mapGet k' (setField m k v) = mapGet k' m := by
  unfold setField
  rw [mapGet_append, mapGet_mapDelete_ne h]
  cases hg : mapGet k' m <;> simp [h, Ne.symm h]

theorem mapGet_eq_none_of_not_mem_keys {k : String} {m : DataMap}
    (h : k ∉ keysOf m) : mapGet k m = none := by
  induction m with
  | nil => rfl
  | cons kv rest ih =>
    obtain ⟨k₀, v⟩ := kv
    rw [keysOf_cons, List.mem_cons] at h
    push_neg at h
    have h1 : ¬ k₀ = k := fun he => h.1 he.symm
    simp [h1, ih h.2]

theorem mem_keys_of_mapGet_eq_some {k : String} {m : DataMap} {v : Value}
    (h : mapGet k m = some v) : k ∈ keysOf m := by
  induction m with
  | nil => simp [mapGet] at h
  | cons kv rest ih =>
    obtain ⟨k₀, v₀⟩ := kv
    by_cases hk : k₀ = k
    · subst hk
      simp
    · simp [hk] at h
      exact List.mem_cons_of_mem _ (ih h)

theorem mapGet_setAll_not_mem {k : String} {d : DataMap} (m : DataMap)
    (h : k ∉ keysOf d) : mapGet k (setAll m d) = mapGet k m := by
  induction d generalizing m with
  | nil => rfl
  | cons kv rest ih =>
    obtain ⟨k₀, v₀⟩ := kv
    rw [keysOf_cons, List.mem_cons] at h
    push_neg at h
    rw [setAll, List.foldl_cons]
    have hrec := ih (setField m k₀ v₀) h.2
    rw [setAll] at hrec
    rw [hrec, mapGet_setField_ne h.1]

theorem mapGet_setAll_mem {k : String} {d : DataMap} {v : Value} (m : DataMap)
    (hnd : (keysOf d).Nodup) (h : mapGet k d = some v) :
    mapGet k (setAll m d) = some v := by
  induction d generalizing m with
  | nil => simp [mapGet] at h
  | cons kv rest ih =>
    obtain ⟨k₀, v₀⟩ := kv
    rw [keysOf_cons, List.nodup_cons] at hnd
    by_cases hk : k₀ = k
    · subst hk
      simp at h
      rw [setAll, List.foldl_cons]
      have hrec := mapGet_setAll_not_mem (setField m k₀ v₀) hnd.1
      rw [setAll] at hrec
      rw [hrec, mapGet_setField_self, h]
    · simp [hk] at h
      rw [setAll, List.foldl_cons]
      have hrec := ih (setField m k₀ v₀) hnd.2 h
      rw [setAll] at hrec
      exact hrec

theorem mem_keysOf_mapDelete {x k : String} {m : DataMap}
    (h : x ∈ keysOf (mapDelete k m)) : x ∈ keysOf m := by
  induction m with
  | nil => simp [mapDelete] at h
  | cons kv rest ih =>
    obtain ⟨k₀, v₀⟩ := kv
    by_cases hk : k₀ = k
    · simp only [mapDelete, if_pos hk] at h
      exact List.mem_cons_of_mem _ (ih h)
    · simp only [mapDelete, if_neg hk, keysOf_cons, List.mem_cons] at h ⊢
      rcases h with h | h
      · exact Or.inl h
      · exact Or.inr (ih h)

theorem keysOf_mapDelete_nodup {m : DataMap} (k : String)
    (h : (keysOf m).Nodup) : (keysOf (mapDelete k m)).Nodup := by
  induction m with
  | nil => simp [mapDelete]
  | cons kv rest ih =>
    obtain ⟨k₀, v₀⟩ := kv
    rw [keysOf_cons, List.nodup_cons] at h
    by_cases hk : k₀ = k
    · simp only [mapDelete, if_pos hk]
      exact ih h.2
    · simp only [mapDelete, if_neg hk, keysOf_cons, List.nodup_cons]
      exact ⟨fun hm => h.1 (mem_keysOf_mapDelete hm), ih h.2⟩

/-- Value of a digit character. -/
def digitVal (c : Char) : Nat :=
  c.toNat - 48

/-- Value of a digit string, most significant digit first. -/
def digitsVal (cs : List Char) : Nat :=
  cs.foldl (fun a c => a * 10 + digitVal c) 0

/-- Parse of a plain base-10 decimal string (optional sign, integer digits,
optional fractional digits), returning the exact value as a scaled integer:
`some (n, k)` represents the number `n / 10 ^ k`. This models the
`strconv.ParseFloat` call of `parseLagerTimestamp` on the decimal-notation
strings the lager facade emits; exponent, hexadecimal and infinity forms that
`ParseFloat` additionally accepts are outside this model, and the binary
rounding of the parsed value to the float64 grid is abstracted away (the value
is kept exact). -/
def parseDecimal (ts : String) : Option (Int × Nat) :=
  let cs := ts.data
  let signed : Int × List Char :=
    match cs with
    | '-' :: r => (-1, r)
    | '+' :: r => (1, r)
    | r => (1, r)
  let intPart := signed.2.takeWhile fun c => c.isDigit
  let after := signed.2.dropWhile fun c => c.isDigit
  match after with
  | [] =>
    if intPart.isEmpty then none
    else some (signed.1 * digitsVal intPart, 0)
  | '.' :: frac =>
    if frac.all (fun c => c.isDigit) && (intPart.length + frac.length != 0) then
      some (signed.1 * digitsVal (intPart ++ frac), frac.length)
    else none
  | _ => none

/-- Division of an integer by a positive natural with truncation toward zero,
the semantics of Go's float64-to-int64 conversion applied to an exact value
`n / d`. -/
def truncDiv (n : Int) (d : Nat) : Int :=
  if 0 ≤ n then ((n.toNat / d : Nat) : Int) else -(((-n).toNat / d : Nat) : Int)

/-- Model of `parseLagerTimestamp`: parse the timestamp string as a base-10
number, then decompose it into whole seconds (`int64(timeFloat)`, truncation
toward zero) and nanoseconds (`int64((timeFloat - float64(seconds)) * 1e9)`,
again truncation toward zero of the exact scaled value). On parse failure the
error of `strconv.ParseFloat` is returned. -/
def parseLagerTimestamp (ts : String) : Except String (Int × Int) :=
  match parseDecimal ts with
  | none =>
    Except.error ("strconv.ParseFloat: parsing \"" ++ ts ++ "\": invalid syntax")
  | some (n, k) =>
    let seconds := truncDiv n (10 ^ k)
    let nanos := truncDiv ((n - seconds * (10 ^ k : Nat)) * 1000000000) (10 ^ k)
    Except.ok (seconds, nanos)

/-- Model of `logLevelToString`. The lager levels are `DEBUG=0`, `INFO=1`,
`ERROR=2`, `FATAL=3`; every other ordinal renders as `UNKNOWN`. -/
def logLevelToString (logLevel : Int) : String :=
  if logLevel = 0 then "DEBUG"
  else if logLevel = 1 then "INFO"
  else if logLevel = 2 then "ERROR"
  else if logLevel = 3 then "FATAL"
  else "UNKNOWN"

/-- Bound passed to `rand.Intn` when the correlation token is drawn:
`math.MaxInt32 = 2^31 - 1`. -/
def maxInt32 : Nat := 2147483647

/-- Model of `rand.Intn n` applied to a draw `r` of the process-wide random
source: a uniform value in `[0, n)`. -/
def randIntn (n r : Nat) : Nat :=
  r % n

/-- A lager `LogFormat` record, keeping exactly the fields `Sink.Log` reads:
source, message, the level ordinal, the caller-owned data map and the
fractional-seconds timestamp string. -/
structure LogFormat where
  source : String
  message : String
  logLevel : Int
  data : DataMap
  timestamp : String
deriving DecidableEq, Repr

/-- A libhoney event as this sink uses it: a field map, the opaque metadata
payload set by `Log`, and an optional timestamp override (`none` means the
event keeps its default construction-time timestamp). -/
structure Event where
  fields : DataMap
  metadata : Option DataMap
  timestamp : Option (Int × Int)
deriving DecidableEq, Repr, Inhabited

/-- Nondeterministic runtime inputs of one `Log` call: the raw draw of the
shared random generator, the best-effort caller name from `runtime.Caller`
(`none` when the runtime cannot resolve it), and the two dynamic field values
computed at event construction. -/
structure Oracle where
  rand : Nat
  callerName : Option String
  numGoroutines : Int
  memAlloc : Int
deriving DecidableEq, Repr

/-- Model of `libhoney.Builder.NewEvent` for the builder `NewSink` sets up:
a fresh event pre-populated with the two dynamic fields, no metadata and the
default construction-time timestamp. -/
def newEvent (o : Oracle) : Event :=
  { fields := setField (setField [] "num_goroutines" (Value.vInt o.numGoroutines))
      "memory_allocation" (Value.vInt o.memAlloc)
    metadata := none
    timestamp := none }

/-- Model of `libhoney.Event.AddField`. -/
def addField (e : Event) (k : String) (v : Value) : Event :=
  { e with fields := setField e.fields k v }

/-- Model of `libhoney.Event.Add` on a map. -/
def evAddAll (e : Event) (d : DataMap) : Event :=
  { e with fields := setAll e.fields d }

/-- Model of `Sink.Log` from `honeylager.go`: filter by severity, build an
event, attach the best-effort caller function name, assign the correlation
token as metadata, map the fixed lager fields, move a `session` entry of the
caller's data to `lager_session` (deleting it from the caller's map), merge
the remaining data, and resolve the timestamp. The returned pair is the list
of submitted events and the final state of the caller's data map; `Log`
itself returns nothing and never propagates an error to its caller. -/
def sinkLog (minLogLevel : Int) (o : Oracle) (lf : LogFormat) :
    List Event × DataMap :=
  if lf.logLevel < minLogLevel then ([], lf.data)
  else
    let ev0 := newEvent o
    let ev1 :=
      match o.callerName with
      | some funcName => addField ev0 "function" (Value.vStr funcName)
      | none => ev0
    let ev2 := { ev1 with
      metadata := some [("id", Value.vInt (randIntn maxInt32 o.rand))] }
    let ev3 := addField ev2 "lager_source" (Value.vStr lf.source)
    let ev4 := addField ev3 "lager_message" (Value.vStr lf.message)
    let ev5 := addField ev4 "lager_log_level_iota" (Value.vInt lf.logLevel)
    let ev6 := addField ev5 "lager_log_level" (Value.vStr (logLevelToString lf.logLevel))
    let stepped :=
      match mapGet "session" lf.data with
      | some session =>
        (addField ev6 "lager_session" session, mapDelete "session" lf.data)
      | none => (ev6, lf.data)
    let ev7 := evAddAll stepped.1 stepped.2
    let ev8 :=
      match parseLagerTimestamp lf.timestamp with
      | Except.error e => addField ev7 "lager_timestamp_parse_error" (Value.vErr e)
      | Except.ok t => { ev7 with timestamp := some t }
    ([ev8], stepped.2)

/-- Model of `Sink.Log` from the second, near-duplicate sink implementation:
identical to `sinkLog` except that it captures no caller function name and
performs no `session` renaming. -/
def partLog (minLogLevel : Int) (o : Oracle) (lf : LogFormat) :
    List Event × DataMap :=
  if lf.logLevel < minLogLevel then ([], lf.data)
  else
    let ev0 := newEvent o
    let ev2 := { ev0 with
      metadata := some [("id", Value.vInt (randIntn maxInt32 o.rand))] }
    let ev3 := addField ev2 "lager_source" (Value.vStr lf.source)
    let ev4 := addField ev3 "lager_message" (Value.vStr lf.message)
    let ev5 := addField ev4 "lager_log_level_iota" (Value.vInt lf.logLevel)
    let ev6 := addField ev5 "lager_log_level" (Value.vStr (logLevelToString lf.logLevel))
    let ev7 := evAddAll ev6 lf.data
    let ev8 :=
      match parseLagerTimestamp lf.timestamp with
      | Except.error e => addField ev7 "lager_timestamp_parse_error" (Value.vErr e)
      | Except.ok t => { ev7 with timestamp := some t }
    ([ev8], lf.data)

/-- The metadata payload of a delivery outcome, a Go `interface\x7b\x7d` value:
either a string-keyed map (the shape `Log` produces) or some other value on
which the reconciler's type assertion fails. -/
inductive MetaPayload where
  | mmap (m : DataMap)
  | nonMap (tag : String)
deriving DecidableEq, Repr

/-- A delivery outcome from the transport (`libhoney.Response`). -/
structure HResponse where
  statusCode : Int
  err : Option String
  body : String
  metadata : Option MetaPayload
  duration : Int
deriving DecidableEq, Repr

/-- One report printed by `ReadResponses` for one outcome. -/
inductive Report where
  | badStatus (code : Int) (err : Option String) (body : String)
  | metadataMissing
  | malformedMetadata
  | success (token : Option Value) (duration : Int)
deriving DecidableEq, Repr

/-- Classification of a single outcome by the body of the `ReadResponses`
loop: a failure for a status outside `[200, 300)`, a missing-metadata failure
for a nil payload, a malformed-metadata failure when the type assertion to a
map fails, and otherwise a success carrying the map's value under `"id"`
(`none` models the nil a missing key yields) and the delivery duration. -/
def processResponse (r : HResponse) : Report :=
  if r.statusCode < 200 ∨ 300 ≤ r.statusCode then
    Report.badStatus r.statusCode r.err r.body
  else
    match r.metadata with
    | none => Report.metadataMissing
    | some (MetaPayload.nonMap _) => Report.malformedMetadata
    | some (MetaPayload.mmap m) => Report.success (mapGet "id" m) r.duration

/-- Model of `ReadResponses`: drain the outcome stream (modelled as the list
of outcomes the stream delivers before it closes), producing one report per
outcome; every branch of the loop body ends in `continue`, so the loop only
stops when the stream is exhausted. -/
def readResponses : List HResponse → List Report
  | [] => []
  | r :: rest => processResponse r :: readResponses rest

/-- Event field names that `Log` itself writes; a data key equal to one of
these collides with the sink's own fields on the submitted event. -/
def reservedKeys : List String :=
  ["function", "lager_source", "lager_message", "lager_log_level_iota",
   "lager_log_level", "lager_session", "lager_timestamp_parse_error",
   "num_goroutines", "memory_allocation"]

/-- Field map of a freshly built event: the two dynamic fields. -/
def baseFields (o : Oracle) : DataMap :=
  setField (setField [] "num_goroutines" (Value.vInt o.numGoroutines))
    "memory_allocation" (Value.vInt o.memAlloc)

/-- Field map after the best-effort caller-name capture. -/
def funcFields (o : Oracle) : DataMap :=
  match o.callerName with
  | some fn => setField (baseFields o) "function" (Value.vStr fn)
  | none => baseFields o

/-- Field map after the four fixed lager fields. -/
def fixedFields (o : Oracle) (lf : LogFormat) : DataMap :=
  setField (setField (setField (setField (funcFields o)
    "lager_source" (Value.vStr lf.source))
    "lager_message" (Value.vStr lf.message))
    "lager_log_level_iota" (Value.vInt lf.logLevel))
    "lager_log_level" (Value.vStr (logLevelToString lf.logLevel))

/-- The caller's data map after the `session` handling step. -/
def postSessionData (lf : LogFormat) : DataMap :=
  match mapGet "session" lf.data with
  | some _ => mapDelete "session" lf.data
  | none => lf.data

/-- Field map after the `session` handling step. -/
def sessionFields (o : Oracle) (lf : LogFormat) : DataMap :=
  match mapGet "session" lf.data with
  | some sv => setField (fixedFields o lf) "lager_session" sv
  | none => fixedFields o lf

/-- Field map after the remaining data is merged in. -/
def mergedFields (o : Oracle) (lf : LogFormat) : DataMap :=
  setAll (sessionFields o lf) (postSessionData lf)

/-- Field map of the submitted event, after timestamp resolution. -/
def finalFields (o : Oracle) (lf : LogFormat) : DataMap :=
  match parseLagerTimestamp lf.timestamp with
  | Except.error e => setField (mergedFields o lf) "lager_timestamp_parse_error" (Value.vErr e)
  | Except.ok _ => mergedFields o lf

/-- Timestamp of the submitted event (`none` is the default construction-time
timestamp). -/
def finalTs (lf : LogFormat) : Option (Int × Int) :=
  match parseLagerTimestamp lf.timestamp with
  | Except.error _ => none
  | Except.ok t => some t

theorem sinkLog_eq (minLogLevel : Int) (o : Oracle) (lf : LogFormat)
    (hlvl : ¬ lf.logLevel < minLogLevel) :
    sinkLog minLogLevel o lf =
      ([{ fields := finalFields o lf
          metadata := some [("id", Value.vInt (randIntn maxInt32 o.rand))]
          timestamp := finalTs lf }],
        postSessionData lf) := by
  rcases hc : o.callerName with _ | fn <;>
    rcases hs : mapGet "session" lf.data with _ | sv <;>
    rcases hp : parseLagerTimestamp lf.timestamp with e | t <;>
    simp [sinkLog, hlvl, hc, hs, hp, newEvent, addField, evAddAll, baseFields,
      funcFields, fixedFields, sessionFields, mergedFields, finalFields,
      finalTs, postSessionData]

theorem mapGet_fixedFields_source (o : Oracle) (lf : LogFormat) :
    mapGet "lager_source" (fixedFields o lf) = some (Value.vStr lf.source) := by
  unfold fixedFields
  rw [mapGet_setField_ne (by decide), mapGet_setField_ne (by decide),
    mapGet_setField_ne (by decide), mapGet_setField_self]

theorem mapGet_fixedFields_message (o : Oracle) (lf : LogFormat) :
    mapGet "lager_message" (fixedFields o lf) = some (Value.vStr lf.message) := by
  unfold fixedFields
  rw [mapGet_setField_ne (by decide), mapGet_setField_ne (by decide),
    mapGet_setField_self]

theorem mapGet_fixedFields_iota (o : Oracle) (lf : LogFormat) :
    mapGet "lager_log_level_iota" (fixedFields o lf) = some (Value.vInt lf.logLevel) := by
  unfold fixedFields
  rw [mapGet_setField_ne (by decide), mapGet_setField_self]

theorem mapGet_fixedFields_level (o : Oracle) (lf : LogFormat) :
    mapGet "lager_log_level" (fixedFields o lf) =
      some (Value.vStr (logLevelToString lf.logLevel)) := by
  unfold fixedFields
  rw [mapGet_setField_self]

theorem mapGet_fixedFields_of_ne {k : String} (o : Oracle) (lf : LogFormat)
    (h1 : k ≠ "lager_source") (h2 : k ≠ "lager_message")
    (h3 : k ≠ "lager_log_level_iota") (h4 : k ≠ "lager_log_level") :
    mapGet k (fixedFields o lf) = mapGet k (funcFields o) := by
  unfold fixedFields
  rw [mapGet_setField_ne h4, mapGet_setField_ne h3, mapGet_setField_ne h2,
    mapGet_setField_ne h1]

theorem mapGet_funcFields_some {o : Oracle} {fn : String}
    (hc : o.callerName = some fn) :
    mapGet "function" (funcFields o) = some (Value.vStr fn) := by
  unfold funcFields
  rw [hc, mapGet_setField_self]

theorem mapGet_funcFields_of_ne {k : String} (o : Oracle) (h : k ≠ "function") :
    mapGet k (funcFields o) = mapGet k (baseFields o) := by
  unfold funcFields
  cases o.callerName
  · rfl
  · rw [mapGet_setField_ne h]

theorem mapGet_baseFields_goroutines (o : Oracle) :
    mapGet "num_goroutines" (baseFields o) = some (Value.vInt o.numGoroutines) := by
  unfold baseFields
  rw [mapGet_setField_ne (by decide), mapGet_setField_self]

theorem mapGet_baseFields_memory (o : Oracle) :
    mapGet "memory_allocation" (baseFields o) = some (Value.vInt o.memAlloc) := by
  unfold baseFields
  rw [mapGet_setField_self]

theorem mapGet_baseFields_of_ne {k : String} (o : Oracle)
    (h1 : k ≠ "num_goroutines") (h2 : k ≠ "memory_allocation") :
    mapGet k (baseFields o) = none := by
  unfold baseFields
  rw [mapGet_setField_ne h2, mapGet_setField_ne h1, mapGet_nil]

theorem mapGet_sessionFields_of_ne {k : String} (o : Oracle) (lf : LogFormat)
    (h : k ≠ "lager_session") :
    mapGet k (sessionFields o lf) = mapGet k (fixedFields o lf) := by
  unfold sessionFields
  cases mapGet "session" lf.data
  · rfl
  · rw [mapGet_setField_ne h]

theorem mapGet_sessionFields_session {o : Oracle} {lf : LogFormat} {v : Value}
    (hs : mapGet "session" lf.data = some v) :
    mapGet "lager_session" (sessionFields o lf) = some v := by
  unfold sessionFields
  rw [hs, mapGet_setField_self]

theorem mem_keysOf_postSessionData {x : String} {lf : LogFormat}
    (h : x ∈ keysOf (postSessionData lf)) : x ∈ keysOf lf.data := by
  unfold postSessionData at h
  cases hs : mapGet "session" lf.data <;> rw [hs] at h
  · exact h
  · exact mem_keysOf_mapDelete h

theorem keysOf_postSessionData_nodup {lf : LogFormat}
    (h : (keysOf lf.data).Nodup) : (keysOf (postSessionData lf)).Nodup := by
  unfold postSessionData
  cases mapGet "session" lf.data
  · exact h
  · exact keysOf_mapDelete_nodup _ h

theorem mapGet_postSessionData_of_ne {k : String} (lf : LogFormat)
    (h : k ≠ "session") :
    mapGet k (postSessionData lf) = mapGet k lf.data := by
  unfold postSessionData
  cases mapGet "session" lf.data
  · rfl
  · exact mapGet_mapDelete_ne h lf.data

theorem mapGet_mergedFields_not_mem {k : String} (o : Oracle) (lf : LogFormat)
    (h : k ∉ keysOf (postSessionData lf)) :
    mapGet k (mergedFields o lf) = mapGet k (sessionFields o lf) :=
  mapGet_setAll_not_mem _ h

theorem mapGet_mergedFields_mem {k : String} {lf : LogFormat} {v : Value} (o : Oracle)
    (hnd : (keysOf (postSessionData lf)).Nodup)
    (h : mapGet k (postSessionData lf) = some v) :
    mapGet k (mergedFields o lf) = some v :=
  mapGet_setAll_mem _ hnd h

theorem mapGet_finalFields_of_ne {k : String} (o : Oracle) (lf : LogFormat)
    (h : k ≠ "lager_timestamp_parse_error") :
    mapGet k (finalFields o lf) = mapGet k (mergedFields o lf) := by
  unfold finalFields
  cases parseLagerTimestamp lf.timestamp
  · rw [mapGet_setField_ne h]
  · rfl

theorem mapGet_finalFields_parse_error {o : Oracle} {lf : LogFormat} {msg : String}
    (hp : parseLagerTimestamp lf.timestamp = Except.error msg) :
    mapGet "lager_timestamp_parse_error" (finalFields o lf) =
      some (Value.vErr msg) := by
  unfold finalFields
  rw [hp, mapGet_setField_self]

theorem mapGet_funcFields_none {o : Oracle} (hc : o.callerName = none) :
    mapGet "function" (funcFields o) = none := by
  unfold funcFields
  rw [hc]
  exact mapGet_baseFields_of_ne o (by decide) (by decide)

theorem mapGet_finalFields_ok {o : Oracle} {lf : LogFormat} {t : Int × Int}
    (hp : parseLagerTimestamp lf.timestamp = Except.ok t) (k : String) :
    mapGet k (finalFields o lf) = mapGet k (mergedFields o lf) := by
  unfold finalFields
  rw [hp]

theorem parseDecimal_eq_none_of_error {ts msg : String}
    (hp : parseLagerTimestamp ts = Except.error msg) : parseDecimal ts = none := by
  unfold parseLagerTimestamp at hp
  cases hd : parseDecimal ts with
  | none => rfl
  | some nk => rw [hd] at hp; simp at hp

theorem length_readResponses (rs : List HResponse) :
    (readResponses rs).length = rs.length := by
  induction rs with
  | nil => rfl
  | cons r rest ih => simp [readResponses, ih]

/-- Sample inputs used by the witnesses below. -/
def oSample : Oracle :=
  { rand := 3, callerName := some "main.main", numGoroutines := 2, memAlloc := 10 }

def oNoCaller : Oracle :=
  { rand := 7, callerName := none, numGoroutines := 3, memAlloc := 99 }

def lfPlain : LogFormat :=
  { source := "s", message := "m", logLevel := 1,
    data := [("k", Value.vInt 4)], timestamp := "2.5" }

def lfSession : LogFormat :=
  { source := "s", message := "m", logLevel := 1,
    data := [("session", Value.vStr "a"), ("k", Value.vInt 4)], timestamp := "2.5" }

def lfBadTs : LogFormat :=
  { source := "s", message := "m", logLevel := 1,
    data := [("k", Value.vInt 4)], timestamp := "not-a-time" }

def lfLow : LogFormat :=
  { source := "s", message := "m", logLevel := 0,
    data := [("a", Value.vStr "b")], timestamp := "1.5" }

def respOkWithId : HResponse :=
  { statusCode := 202, err := none, body := "",
    metadata := some (MetaPayload.mmap [("id", Value.vInt 42)]), duration := 7 }

def respBad : HResponse :=
  { statusCode := 500, err := some "boom", body := "oops",
    metadata := none, duration := 3 }

def respNext : HResponse :=
  { statusCode := 202, err := none, body := "",
    metadata := some (MetaPayload.mmap [("id", Value.vInt 1)]), duration := 2 }

/-- C2: for every log record with level strictly below the configured minimum
level, `Log` returns immediately with no side effects: no event is built or
submitted, and the caller's data mapping is left unchanged. -/
theorem C2_below_min_level_no_effects (minLogLevel : Int) (o : Oracle)
    (lf : LogFormat) (h : lf.logLevel < minLogLevel) :
    sinkLog minLogLevel o lf = ([], lf.data) := by
  simp [sinkLog, h]

theorem C2_below_min_level_no_effects_witness :
    lfLow.logLevel < 2 ∧ sinkLog 2 oSample lfLow = ([], lfLow.data) :=
  ⟨by decide, C2_below_min_level_no_effects 2 oSample lfLow (by decide)⟩

/-- C10: for every log record whose data mapping does not contain the key
`session`, `Log` leaves the caller's data mapping completely unchanged — the
`session` removal is the only mutation of caller-owned state `Log` performs,
whether or not the record passes the severity filter. -/
theorem C10_no_session_no_mutation (minLogLevel : Int) (o : Oracle)
    (lf : LogFormat) (h : "session" ∉ keysOf lf.data) :
    (sinkLog minLogLevel o lf).2 = lf.data := by
  have hg : mapGet "session" lf.data = none := mapGet_eq_none_of_not_mem_keys h
  by_cases hl : lf.logLevel < minLogLevel
  · simp [sinkLog, hl]
  · rw [sinkLog_eq minLogLevel o lf hl]
    unfold postSessionData
    rw [hg]

theorem C10_no_session_no_mutation_witness :
    "session" ∉ keysOf lfPlain.data ∧ (sinkLog 0 oSample lfPlain).2 = lfPlain.data :=
  ⟨by decide, C10_no_session_no_mutation 0 oSample lfPlain (by decide)⟩

/-- C3 counterexample: the claim says the correlation token is uniform over
the half-open range `[0, 2^31)`, but the code draws `rand.Intn(math.MaxInt32)`
with `math.MaxInt32 = 2^31 - 1`, so the top value `2^31 - 1` of the claimed
range is never produced: no draw of the random source yields it. -/
theorem C3_counterexample :
    maxInt32 = 2 ^ 31 - 1 ∧ ¬ ∃ r : Nat, randIntn maxInt32 r = 2 ^ 31 - 1 := by
  constructor
  · decide
  · rintro ⟨r, hr⟩
    have h1 : randIntn maxInt32 r < maxInt32 := Nat.mod_lt r (by decide)
    rw [hr] at h1
    norm_num [maxInt32] at h1

/-- C3 (amended): every event `Log` submits carries its correlation token in
metadata under the single reserved key `id`, and the token is a uniform draw
of `rand.Intn(math.MaxInt32)`: it always lies in `[0, 2^31 - 1)` and every
value of that half-open range is attainable. -/
theorem C3_token_id_and_range (minLogLevel : Int) (o : Oracle) (lf : LogFormat)
    (hlvl : ¬ lf.logLevel < minLogLevel) :
    (∀ e ∈ (sinkLog minLogLevel o lf).1,
      e.metadata = some [("id", Value.vInt (randIntn maxInt32 o.rand))] ∧
      randIntn maxInt32 o.rand < maxInt32) ∧
    (∀ v : Nat, v < maxInt32 → ∃ r : Nat, randIntn maxInt32 r = v) ∧
    maxInt32 = 2 ^ 31 - 1 := by
  refine ⟨?_, fun v hv => ⟨v, Nat.mod_eq_of_lt hv⟩, by decide⟩
  rw [sinkLog_eq minLogLevel o lf hlvl]
  intro e he
  simp only [List.mem_singleton] at he
  subst he
  exact ⟨rfl, Nat.mod_lt _ (by decide)⟩

theorem C3_token_id_and_range_witness :
    (¬ lfPlain.logLevel < 0) ∧
    ((∀ e ∈ (sinkLog 0 oSample lfPlain).1,
      e.metadata = some [("id", Value.vInt (randIntn maxInt32 oSample.rand))] ∧
      randIntn maxInt32 oSample.rand < maxInt32) ∧
    (∀ v : Nat, v < maxInt32 → ∃ r : Nat, randIntn maxInt32 r = v) ∧
    maxInt32 = 2 ^ 31 - 1) :=
  ⟨by decide, C3_token_id_and_range 0 oSample lfPlain (by decide)⟩

/-- C4 counterexample: for a delivery outcome in the success range whose
metadata payload is a mapping that does not contain the expected token key
`id`, the claim demands a malformed-metadata failure, but `ReadResponses`
only type-asserts the payload to a map and never checks the key: it reports a
success whose token is the nil value of the missing key. -/
theorem C4_counterexample :
    mapGet "id" ([] : DataMap) = none ∧
    processResponse
        { statusCode := 202, err := none, body := "",
          metadata := some (MetaPayload.mmap []), duration := 5 }
      = Report.success none 5 ∧
    Report.success (none : Option Value) 5 ≠ Report.malformedMetadata := by
  refine ⟨rfl, ?_, by decide⟩
  decide

/-- C4 (amended): for every delivery outcome whose status code lies in the
success range `[200, 300)`: if the metadata payload is absent the reconciler
reports exactly one metadata-missing failure; if it is present but not a
mapping it reports exactly one malformed-metadata failure; and if it is a
mapping — whether or not it contains the token key `id` — it reports exactly
one success carrying the mapping's value under `id` (nil when the key is
missing) and the measured delivery duration. -/
theorem C4_success_range_classification (r : HResponse)
    (h2 : 200 ≤ r.statusCode) (h3 : r.statusCode < 300) :
    (r.metadata = none → processResponse r = Report.metadataMissing) ∧
    (∀ tag, r.metadata = some (MetaPayload.nonMap tag) →
      processResponse r = Report.malformedMetadata) ∧
    (∀ m, r.metadata = some (MetaPayload.mmap m) →
      processResponse r = Report.success (mapGet "id" m) r.duration) := by
  have hc : ¬ (r.statusCode < 200 ∨ 300 ≤ r.statusCode) := by omega
  unfold processResponse
  rw [if_neg hc]
  exact ⟨fun hm => by rw [hm], fun tag hm => by rw [hm], fun m hm => by rw [hm]⟩

theorem C4_success_range_classification_witness :
    (200 ≤ respOkWithId.statusCode ∧ respOkWithId.statusCode < 300) ∧
    ((respOkWithId.metadata = none →
      processResponse respOkWithId = Report.metadataMissing) ∧
    (∀ tag, respOkWithId.metadata = some (MetaPayload.nonMap tag) →
      processResponse respOkWithId = Report.malformedMetadata) ∧
    (∀ m, respOkWithId.metadata = some (MetaPayload.mmap m) →
      processResponse respOkWithId =
        Report.success (mapGet "id" m) respOkWithId.duration)) :=
  ⟨⟨by decide, by decide⟩,
    C4_success_range_classification respOkWithId (by decide) (by decide)⟩

/-- C8: for every delivery outcome whose status code lies outside `[200, 300)`
the reconciler reports exactly one failure carrying the status code, error
and body, and keeps draining: the next outcome of the stream is still
processed, and the drain loop consumes the entire stream (one report per
outcome), terminating only when the stream itself is closed. -/
theorem C8_bad_status_reported_and_drain_continues (r : HResponse)
    (rest : List HResponse) (h : r.statusCode < 200 ∨ 300 ≤ r.statusCode) :
    processResponse r = Report.badStatus r.statusCode r.err r.body ∧
    readResponses (r :: rest) =
      Report.badStatus r.statusCode r.err r.body :: readResponses rest ∧
    (∀ rs : List HResponse, (readResponses rs).length = rs.length) := by
  have h1 : processResponse r = Report.badStatus r.statusCode r.err r.body := by
    unfold processResponse
    rw [if_pos h]
  exact ⟨h1, by rw [readResponses, h1], length_readResponses⟩

theorem C8_bad_status_reported_and_drain_continues_witness :
    (respBad.statusCode < 200 ∨ 300 ≤ respBad.statusCode) ∧
    (processResponse respBad =
        Report.badStatus respBad.statusCode respBad.err respBad.body ∧
      readResponses (respBad :: [respNext]) =
        Report.badStatus respBad.statusCode respBad.err respBad.body ::
          readResponses [respNext] ∧
      (∀ rs : List HResponse, (readResponses rs).length = rs.length)) :=
  ⟨by decide,
    C8_bad_status_reported_and_drain_continues respBad [respNext] (by decide)⟩

/-- C9 counterexample: the two sink implementations are not behaviorally
equivalent. On a record whose data contains a `session` key (same random
token, same dynamic fields, caller unresolvable) the primary implementation
moves the value to `lager_session` and deletes `session` from the caller's
map, while the second implementation forwards `session` verbatim and mutates
nothing, so both the submitted event and the final data differ. -/
theorem C9_counterexample :
    sinkLog 0 oNoCaller lfSession ≠ partLog 0 oNoCaller lfSession := by
  decide

/-- C9 (amended): the two sink implementations are not behaviorally
equivalent in general, but they always agree on the filtering decision (on
every record, one submits no event exactly when the other submits none), and
whenever the record's data lacks the `session` key and the runtime cannot
resolve the caller's function, they produce the same outcome — the same
submitted event and the same final data. That condition is sufficient, not a
characterization of agreement. -/
theorem C9_agree_without_session_and_caller (minLogLevel : Int) (o : Oracle)
    (lf : LogFormat) (hfn : o.callerName = none)
    (hs : mapGet "session" lf.data = none) :
    (∀ lf' : LogFormat,
      (sinkLog minLogLevel o lf').1 = [] ↔ (partLog minLogLevel o lf').1 = []) ∧
    sinkLog minLogLevel o lf = partLog minLogLevel o lf := by
  constructor
  · intro lf'
    by_cases hl : lf'.logLevel < minLogLevel
    · simp [sinkLog, partLog, hl]
    · simp [sinkLog, partLog, hl]
  · by_cases hl : lf.logLevel < minLogLevel
    · simp [sinkLog, partLog, hl]
    · simp [sinkLog, partLog, hl, hfn, hs]

theorem C9_agree_without_session_and_caller_witness :
    oNoCaller.callerName = none ∧
    mapGet "session" lfPlain.data = none ∧
    ((∀ lf' : LogFormat,
      (sinkLog 0 oNoCaller lf').1 = [] ↔ (partLog 0 oNoCaller lf').1 = []) ∧
    sinkLog 0 oNoCaller lfPlain = partLog 0 oNoCaller lfPlain) :=
  ⟨by decide, by decide,
    C9_agree_without_session_and_caller 0 oNoCaller lfPlain (by decide) (by decide)⟩

/-- C6: for every record at or above the minimum level whose timestamp string
does not parse as a number, `Log` does not fail: the record is still
submitted as exactly one event, that event gains a
`lager_timestamp_parse_error` field holding the parse error, and it keeps its
default construction-time timestamp. (`sinkLog` is a total function and
returns no error, modelling that no error propagates to the caller.) -/
theorem C6_parse_failure_still_submits (minLogLevel : Int) (o : Oracle)
    (lf : LogFormat) (hlvl : ¬ lf.logLevel < minLogLevel)
    (hp : parseDecimal lf.timestamp = none) :
    (sinkLog minLogLevel o lf).1.length = 1 ∧
    ∀ e ∈ (sinkLog minLogLevel o lf).1,
      mapGet "lager_timestamp_parse_error" e.fields =
        some (Value.vErr ("strconv.ParseFloat: parsing \"" ++ lf.timestamp ++
          "\": invalid syntax")) ∧
      e.timestamp = none := by
  have hpe : parseLagerTimestamp lf.timestamp =
      Except.error ("strconv.ParseFloat: parsing \"" ++ lf.timestamp ++
        "\": invalid syntax") := by
    unfold parseLagerTimestamp
    rw [hp]
  rw [sinkLog_eq minLogLevel o lf hlvl]
  refine ⟨rfl, ?_⟩
  intro e he
  simp only [List.mem_singleton] at he
  subst he
  refine ⟨mapGet_finalFields_parse_error hpe, ?_⟩
  show finalTs lf = none
  unfold finalTs
  rw [hpe]

theorem C6_parse_failure_still_submits_witness :
    (¬ lfBadTs.logLevel < 0) ∧ parseDecimal lfBadTs.timestamp = none ∧
    ((sinkLog 0 oSample lfBadTs).1.length = 1 ∧
    ∀ e ∈ (sinkLog 0 oSample lfBadTs).1,
      mapGet "lager_timestamp_parse_error" e.fields =
        some (Value.vErr ("strconv.ParseFloat: parsing \"" ++ lfBadTs.timestamp ++
          "\": invalid syntax")) ∧
      e.timestamp = none) :=
  ⟨by decide, by decide,
    C6_parse_failure_still_submits 0 oSample lfBadTs (by decide) (by decide)⟩

def lfCollide : LogFormat :=
  { source := "s", message := "m", logLevel := 1,
    data := [("lager_source", Value.vStr "x")], timestamp := "1.0" }

def lfSessClash : LogFormat :=
  { source := "s", message := "m", logLevel := 1,
    data := [("session", Value.vStr "a"), ("lager_session", Value.vStr "b")],
    timestamp := "1.0" }

/-- C1 counterexample: the claim asserts the submitted event always carries
`lager_source = record.source`, but data entries are merged after the fixed
fields with map-overwrite semantics, so a record whose data itself binds
`lager_source` clobbers the fixed field: here the event carries
`lager_source = "x"` although `record.source = "s"`. -/
theorem C1_counterexample :
    (sinkLog 0 oNoCaller lfCollide).1.length = 1 ∧
    (∀ e ∈ (sinkLog 0 oNoCaller lfCollide).1,
      mapGet "lager_source" e.fields = some (Value.vStr "x")) ∧
    lfCollide.source = "s" ∧
    Value.vStr "x" ≠ Value.vStr "s" := by
  decide

/-- C1 (amended): for every record at or above the minimum level whose data
keys are distinct (as Go map keys always are) and disjoint from the sink's
own reserved event field names, a single `Log` call submits exactly one
event, and that event carries the fixed lager fields (`lager_source` =
record source, `lager_message` = record message, `lager_log_level_iota` =
the raw level ordinal, `lager_log_level` = the rendered level string, and
the best-effort `function` field exactly when the runtime resolves a
caller), plus one field per remaining key of the record's data (`session`
renamed to `lager_session` when present), plus the two dynamic fields. -/
theorem C1_one_event_with_all_fields (minLogLevel : Int) (o : Oracle)
    (lf : LogFormat) (hlvl : ¬ lf.logLevel < minLogLevel)
    (hnd : (keysOf lf.data).Nodup)
    (hdisj : ∀ k ∈ keysOf lf.data, k ∉ reservedKeys) :
    (sinkLog minLogLevel o lf).1.length = 1 ∧
    ∀ e ∈ (sinkLog minLogLevel o lf).1,
      mapGet "lager_source" e.fields = some (Value.vStr lf.source) ∧
      mapGet "lager_message" e.fields = some (Value.vStr lf.message) ∧
      mapGet "lager_log_level_iota" e.fields = some (Value.vInt lf.logLevel) ∧
      mapGet "lager_log_level" e.fields =
        some (Value.vStr (logLevelToString lf.logLevel)) ∧
      (∀ fn, o.callerName = some fn →
        mapGet "function" e.fields = some (Value.vStr fn)) ∧
      (o.callerName = none → mapGet "function" e.fields = none) ∧
      (∀ k v, k ≠ "session" → mapGet k lf.data = some v →
        mapGet k e.fields = some v) ∧
      (∀ v, mapGet "session" lf.data = some v →
        mapGet "lager_session" e.fields = some v) ∧
      mapGet "num_goroutines" e.fields = some (Value.vInt o.numGoroutines) ∧
      mapGet "memory_allocation" e.fields = some (Value.vInt o.memAlloc) := by
  rw [sinkLog_eq minLogLevel o lf hlvl]
  refine ⟨rfl, ?_⟩
  intro e he
  simp only [List.mem_singleton] at he
  subst he
  have hres : ∀ x : String, x ∈ reservedKeys → x ∉ keysOf (postSessionData lf) := by
    intro x hxres hxmem
    exact hdisj x (mem_keysOf_postSessionData hxmem) hxres
  refine ⟨?_, ?_, ?_, ?_, ?_, ?_, ?_, ?_, ?_, ?_⟩
  · show mapGet "lager_source" (finalFields o lf) = _
    rw [mapGet_finalFields_of_ne o lf (by decide),
      mapGet_mergedFields_not_mem o lf (hres _ (by decide)),
      mapGet_sessionFields_of_ne o lf (by decide),
      mapGet_fixedFields_source]
  · show mapGet "lager_message" (finalFields o lf) = _
    rw [mapGet_finalFields_of_ne o lf (by decide),
      mapGet_mergedFields_not_mem o lf (hres _ (by decide)),
      mapGet_sessionFields_of_ne o lf (by decide),
      mapGet_fixedFields_message]
  · show mapGet "lager_log_level_iota" (finalFields o lf) = _
    rw [mapGet_finalFields_of_ne o lf (by decide),
      mapGet_mergedFields_not_mem o lf (hres _ (by decide)),
      mapGet_sessionFields_of_ne o lf (by decide),
      mapGet_fixedFields_iota]
  · show mapGet "lager_log_level" (finalFields o lf) = _
    rw [mapGet_finalFields_of_ne o lf (by decide),
      mapGet_mergedFields_not_mem o lf (hres _ (by decide)),
      mapGet_sessionFields_of_ne o lf (by decide),
      mapGet_fixedFields_level]
  · intro fn hc
    show mapGet "function" (finalFields o lf) = _
    rw [mapGet_finalFields_of_ne o lf (by decide),
      mapGet_mergedFields_not_mem o lf (hres _ (by decide)),
      mapGet_sessionFields_of_ne o lf (by decide),
      mapGet_fixedFields_of_ne o lf (by decide) (by decide) (by decide) (by decide),
      mapGet_funcFields_some hc]
  · intro hc
    show mapGet "function" (finalFields o lf) = none
    rw [mapGet_finalFields_of_ne o lf (by decide),
      mapGet_mergedFields_not_mem o lf (hres _ (by decide)),
      mapGet_sessionFields_of_ne o lf (by decide),
      mapGet_fixedFields_of_ne o lf (by decide) (by decide) (by decide) (by decide),
      mapGet_funcFields_none hc]
  · intro k v hk hkv
    have hkm := mem_keys_of_mapGet_eq_some hkv
    have hkres := hdisj k hkm
    have hk1 : k ≠ "lager_timestamp_parse_error" := fun he => hkres (by rw [he]; decide)
    show mapGet k (finalFields o lf) = some v
    rw [mapGet_finalFields_of_ne o lf hk1]
    exact mapGet_mergedFields_mem o (keysOf_postSessionData_nodup hnd)
      (by rw [mapGet_postSessionData_of_ne lf hk]; exact hkv)
  · intro v hs
    show mapGet "lager_session" (finalFields o lf) = some v
    rw [mapGet_finalFields_of_ne o lf (by decide),
      mapGet_mergedFields_not_mem o lf (hres _ (by decide)),
      mapGet_sessionFields_session hs]
  · show mapGet "num_goroutines" (finalFields o lf) = _
    rw [mapGet_finalFields_of_ne o lf (by decide),
      mapGet_mergedFields_not_mem o lf (hres _ (by decide)),
      mapGet_sessionFields_of_ne o lf (by decide),
      mapGet_fixedFields_of_ne o lf (by decide) (by decide) (by decide) (by decide),
      mapGet_funcFields_of_ne o (by decide),
      mapGet_baseFields_goroutines]
  · show mapGet "memory_allocation" (finalFields o lf) = _
    rw [mapGet_finalFields_of_ne o lf (by decide),
      mapGet_mergedFields_not_mem o lf (hres _ (by decide)),
      mapGet_sessionFields_of_ne o lf (by decide),
      mapGet_fixedFields_of_ne o lf (by decide) (by decide) (by decide) (by decide),
      mapGet_funcFields_of_ne o (by decide),
      mapGet_baseFields_memory]

theorem C1_one_event_with_all_fields_witness :
    (¬ lfPlain.logLevel < 0) ∧
    (keysOf lfPlain.data).Nodup ∧
    (∀ k ∈ keysOf lfPlain.data, k ∉ reservedKeys) ∧
    ((sinkLog 0 oSample lfPlain).1.length = 1 ∧
    ∀ e ∈ (sinkLog 0 oSample lfPlain).1,
      mapGet "lager_source" e.fields = some (Value.vStr lfPlain.source) ∧
      mapGet "lager_message" e.fields = some (Value.vStr lfPlain.message) ∧
      mapGet "lager_log_level_iota" e.fields = some (Value.vInt lfPlain.logLevel) ∧
      mapGet "lager_log_level" e.fields =
        some (Value.vStr (logLevelToString lfPlain.logLevel)) ∧
      (∀ fn, oSample.callerName = some fn →
        mapGet "function" e.fields = some (Value.vStr fn)) ∧
      (oSample.callerName = none → mapGet "function" e.fields = none) ∧
      (∀ k v, k ≠ "session" → mapGet k lfPlain.data = some v →
        mapGet k e.fields = some v) ∧
      (∀ v, mapGet "session" lfPlain.data = some v →
        mapGet "lager_session" e.fields = some v) ∧
      mapGet "num_goroutines" e.fields = some (Value.vInt oSample.numGoroutines) ∧
      mapGet "memory_allocation" e.fields = some (Value.vInt oSample.memAlloc)) :=
  ⟨by decide, by decide, by decide,
    C1_one_event_with_all_fields 0 oSample lfPlain (by decide) (by decide) (by decide)⟩

/-- C7 counterexample: the claim asserts the `session` value always appears
on the event under `lager_session`, but the data merge happens after the
rename with map-overwrite semantics, so a record whose data also binds
`lager_session` clobbers the moved value: here the event carries
`lager_session = "b"` although the session value was `"a"`. -/
theorem C7_counterexample :
    mapGet "session" lfSessClash.data = some (Value.vStr "a") ∧
    (∀ e ∈ (sinkLog 0 oNoCaller lfSessClash).1,
      mapGet "lager_session" e.fields = some (Value.vStr "b")) ∧
    Value.vStr "b" ≠ Value.vStr "a" := by
  decide

/-- C7 (amended): for every record at or above the minimum level whose data
(with distinct keys, as in any Go map) contains the key `session` but not the
key `lager_session`, and not `lager_timestamp_parse_error` when the record's
timestamp fails to parse, `Log` moves the session entry: its value appears on
the submitted event under `lager_session`, the `session` key is deleted in
place from the caller-supplied data mapping, and all other entries of the
data are forwarded verbatim onto the event and left in place in the caller's
mapping. -/
theorem C7_session_renamed_and_deleted (minLogLevel : Int) (o : Oracle)
    (lf : LogFormat) (v : Value) (hlvl : ¬ lf.logLevel < minLogLevel)
    (hnd : (keysOf lf.data).Nodup)
    (hsess : mapGet "session" lf.data = some v)
    (hns : "lager_session" ∉ keysOf lf.data)
    (hperr : parseDecimal lf.timestamp = none →
      "lager_timestamp_parse_error" ∉ keysOf lf.data) :
    (sinkLog minLogLevel o lf).2 = mapDelete "session" lf.data ∧
    mapGet "session" (sinkLog minLogLevel o lf).2 = none ∧
    (∀ k, k ≠ "session" →
      mapGet k (sinkLog minLogLevel o lf).2 = mapGet k lf.data) ∧
    ∀ e ∈ (sinkLog minLogLevel o lf).1,
      mapGet "lager_session" e.fields = some v ∧
      (∀ k w, k ≠ "session" → mapGet k lf.data = some w →
        mapGet k e.fields = some w) := by
  rw [sinkLog_eq minLogLevel o lf hlvl]
  have hpost : postSessionData lf = mapDelete "session" lf.data := by
    unfold postSessionData
    rw [hsess]
  refine ⟨hpost, ?_, ?_, ?_⟩
  · show mapGet "session" (postSessionData lf) = none
    rw [hpost]
    exact mapGet_mapDelete_self _ _
  · intro k hk
    show mapGet k (postSessionData lf) = _
    exact mapGet_postSessionData_of_ne lf hk
  · intro e he
    simp only [List.mem_singleton] at he
    subst he
    constructor
    · show mapGet "lager_session" (finalFields o lf) = some v
      have hnmem : "lager_session" ∉ keysOf (postSessionData lf) :=
        fun hx => hns (mem_keysOf_postSessionData hx)
      rw [mapGet_finalFields_of_ne o lf (by decide),
        mapGet_mergedFields_not_mem o lf hnmem,
        mapGet_sessionFields_session hsess]
    · intro k w hk hkw
      have hkm := mem_keys_of_mapGet_eq_some hkw
      have hmerged : mapGet k (mergedFields o lf) = some w :=
        mapGet_mergedFields_mem o (keysOf_postSessionData_nodup hnd)
          (by rw [mapGet_postSessionData_of_ne lf hk]; exact hkw)
      show mapGet k (finalFields o lf) = some w
      cases hp : parseLagerTimestamp lf.timestamp with
      | error msg =>
        have hk1 : k ≠ "lager_timestamp_parse_error" :=
          fun he => (hperr (parseDecimal_eq_none_of_error hp)) (he ▸ hkm)
        rw [mapGet_finalFields_of_ne o lf hk1, hmerged]
      | ok t =>
        rw [mapGet_finalFields_ok hp k, hmerged]

theorem C7_session_renamed_and_deleted_witness :
    (¬ lfSession.logLevel < 0) ∧
    (keysOf lfSession.data).Nodup ∧
    mapGet "session" lfSession.data = some (Value.vStr "a") ∧
    "lager_session" ∉ keysOf lfSession.data ∧
    ((sinkLog 0 oSample lfSession).2 = mapDelete "session" lfSession.data ∧
    mapGet "session" (sinkLog 0 oSample lfSession).2 = none ∧
    (∀ k, k ≠ "session" →
      mapGet k (sinkLog 0 oSample lfSession).2 = mapGet k lfSession.data) ∧
    ∀ e ∈ (sinkLog 0 oSample lfSession).1,
      mapGet "lager_session" e.fields = some (Value.vStr "a") ∧
      (∀ k w, k ≠ "session" → mapGet k lfSession.data = some w →
        mapGet k e.fields = some w)) :=
  ⟨by decide, by decide, by decide, by decide,
    C7_session_renamed_and_deleted 0 oSample lfSession (Value.vStr "a")
      (by decide) (by decide) (by decide) (by decide) (by decide)⟩

theorem truncDiv_nonneg_bounds (n : Int) (d : Nat) (hd : 0 < d) (hn : 0 ≤ n) :
    truncDiv n d * d ≤ n ∧ n < (truncDiv n d + 1) * d := by
  rw [truncDiv, if_pos hn]
  have han : ((n.toNat : Int)) = n := Int.toNat_of_nonneg hn
  have h1 : n.toNat / d * d ≤ n.toNat := Nat.div_mul_le_self _ _
  have h2 : n.toNat < (n.toNat / d + 1) * d := by
    have h3 := Nat.div_add_mod n.toNat d
    have h4 := Nat.mod_lt n.toNat hd
    calc n.toNat = d * (n.toNat / d) + n.toNat % d := h3.symm
      _ < d * (n.toNat / d) + d := by omega
      _ = (n.toNat / d + 1) * d := by ring
  constructor
  · rw [← han]
    exact_mod_cast h1
  · rw [← han]
    exact_mod_cast h2

theorem truncDiv_neg_bounds (n : Int) (d : Nat) (hd : 0 < d) (hn : n < 0) :
    (truncDiv n d - 1) * d < n ∧ n ≤ truncDiv n d * d := by
  rw [truncDiv, if_neg (by omega)]
  have hbn : (((-n).toNat : Int)) = -n := Int.toNat_of_nonneg (by omega)
  have h1 : (-n).toNat / d * d ≤ (-n).toNat := Nat.div_mul_le_self _ _
  have h2 : (-n).toNat < ((-n).toNat / d + 1) * d := by
    have h3 := Nat.div_add_mod (-n).toNat d
    have h4 := Nat.mod_lt (-n).toNat hd
    calc (-n).toNat = d * ((-n).toNat / d) + (-n).toNat % d := h3.symm
      _ < d * ((-n).toNat / d) + d := by omega
      _ = ((-n).toNat / d + 1) * d := by ring
  have h1' : (((-n).toNat / d : Nat) : Int) * d ≤ (((-n).toNat : Nat) : Int) := by
    exact_mod_cast h1
  have h2' : (((-n).toNat : Nat) : Int) < ((((-n).toNat / d : Nat) : Int) + 1) * d := by
    exact_mod_cast h2
  constructor
  · nlinarith [h1', h2', hbn]
  · nlinarith [h1', h2', hbn]

/-- C5: for every record timestamp string that parses as a base-10 number
(with exact value `n / 10^k`), the resolved decomposition consists of an
integer-seconds component `s` equal to the parsed value truncated toward
zero and a nanoseconds component `ns` obtained by truncating
`(value - s) * 1e9` toward zero; truncation toward zero is pinned down by
the order bounds below. The claim's concrete instance for the string
`"1504804895.094333887"` is checked in the witness. -/
theorem C5_timestamp_truncation (ts : String) (n : Int) (k : Nat)
    (h : parseDecimal ts = some (n, k)) :
    ∃ s ns : Int,
      parseLagerTimestamp ts = Except.ok (s, ns) ∧
      (0 ≤ n → s * (10 ^ k : Nat) ≤ n ∧ n < (s + 1) * (10 ^ k : Nat)) ∧
      (n < 0 → (s - 1) * (10 ^ k : Nat) < n ∧ n ≤ s * (10 ^ k : Nat)) ∧
      (0 ≤ (n - s * (10 ^ k : Nat)) * 1000000000 →
        ns * (10 ^ k : Nat) ≤ (n - s * (10 ^ k : Nat)) * 1000000000 ∧
        (n - s * (10 ^ k : Nat)) * 1000000000 < (ns + 1) * (10 ^ k : Nat)) ∧
      ((n - s * (10 ^ k : Nat)) * 1000000000 < 0 →
        (ns - 1) * (10 ^ k : Nat) < (n - s * (10 ^ k : Nat)) * 1000000000 ∧
        (n - s * (10 ^ k : Nat)) * 1000000000 ≤ ns * (10 ^ k : Nat)) := by
  have hd : 0 < 10 ^ k := pow_pos (by norm_num) k
  refine ⟨truncDiv n (10 ^ k),
    truncDiv ((n - truncDiv n (10 ^ k) * (10 ^ k : Nat)) * 1000000000) (10 ^ k),
    ?_, ?_, ?_, ?_, ?_⟩
  · unfold parseLagerTimestamp
    rw [h]
  · intro hn
    exact truncDiv_nonneg_bounds n _ hd hn
  · intro hn
    exact truncDiv_neg_bounds n _ hd hn
  · intro hm
    exact truncDiv_nonneg_bounds _ _ hd hm
  · intro hm
    exact truncDiv_neg_bounds _ _ hd hm

theorem C5_timestamp_truncation_witness :
    parseDecimal "1504804895.094333887" = some (1504804895094333887, 9) ∧
    parseLagerTimestamp "1504804895.094333887" = Except.ok (1504804895, 94333887) ∧
    (∃ s ns : Int,
      parseLagerTimestamp "1504804895.094333887" = Except.ok (s, ns) ∧
      (0 ≤ (1504804895094333887 : Int) →
        s * (10 ^ 9 : Nat) ≤ 1504804895094333887 ∧
        (1504804895094333887 : Int) < (s + 1) * (10 ^ 9 : Nat)) ∧
      ((1504804895094333887 : Int) < 0 →
        (s - 1) * (10 ^ 9 : Nat) < 1504804895094333887 ∧
        (1504804895094333887 : Int) ≤ s * (10 ^ 9 : Nat)) ∧
      (0 ≤ ((1504804895094333887 : Int) - s * (10 ^ 9 : Nat)) * 1000000000 →
        ns * (10 ^ 9 : Nat) ≤
          ((1504804895094333887 : Int) - s * (10 ^ 9 : Nat)) * 1000000000 ∧
        ((1504804895094333887 : Int) - s * (10 ^ 9 : Nat)) * 1000000000 <
          (ns + 1) * (10 ^ 9 : Nat)) ∧
      (((1504804895094333887 : Int) - s * (10 ^ 9 : Nat)) * 1000000000 < 0 →
        (ns - 1) * (10 ^ 9 : Nat) <
          ((1504804895094333887 : Int) - s * (10 ^ 9 : Nat)) * 1000000000 ∧
        ((1504804895094333887 : Int) - s * (10 ^ 9 : Nat)) * 1000000000 ≤
          ns * (10 ^ 9 : Nat))) :=
  ⟨by decide, rfl,
    C5_timestamp_truncation "1504804895.094333887" 1504804895094333887 9 (by decide)⟩

end Honeylager
